import Mathlib

/-!
Shallow embedding of the lightrec core (`lightrec.c`, plus the interfaces of
`blockcache.h`) and proofs checking the natural-language specification
against it.

Conventions of the embedding:
* machine integers are `Nat` with explicit `% 2^32` (resp. `% 2^64`)
  wherever the C code can overflow or truncate;
* host memory is a byte-addressed function `Nat → Nat` whose values are
  kept below 256 by the write operations;
* MMIO callbacks, the disassembler, the per-opcode emitter, the cycle
  table and the native execution of a block are external collaborators:
  they are passed in as function-valued parameters, and their store
  side effects are recorded as explicit effect lists;
* fallible C functions (returning NULL) become `Option`; a dereference
  of a NULL pointer is modelled by an explicit `crash` outcome.
-/

namespace Lightrec

/-! ### Bytes, halfwords, words -/

/-- Byte-addressed host memory. -/
def Mem : Type := Nat → Nat

/-- `*(u8 *) a` -/
def readU8 (m : Mem) (a : Nat) : Nat := m a % 2^8

/-- `*(u8 *) a = v` (the store truncates to 8 bits, like the C cast). -/
def writeU8 (m : Mem) (a v : Nat) : Mem := fun x => if x = a then v % 2^8 else m x

/-- `*(u16 *) a`, little-endian. -/
def readU16 (m : Mem) (a : Nat) : Nat := readU8 m a + 2^8 * readU8 m (a+1)

/-- `*(u16 *) a = v`, little-endian. -/
def writeU16 (m : Mem) (a v : Nat) : Mem := writeU8 (writeU8 m a v) (a+1) (v / 2^8)

/-- `*(u32 *) a`, little-endian. -/
def readU32 (m : Mem) (a : Nat) : Nat :=
  readU8 m a + 2^8 * readU8 m (a+1) + 2^16 * readU8 m (a+2) + 2^24 * readU8 m (a+3)

/-- `*(u32 *) a = v`, little-endian. -/
def writeU32 (m : Mem) (a v : Nat) : Mem :=
  writeU8 (writeU8 (writeU8 (writeU8 m a v) (a+1) (v / 2^8)) (a+2) (v / 2^16)) (a+3) (v / 2^24)

/-- `(u32)(s32)(s8) b` for a byte `b < 256`: sign extension to 32 bits. -/
def sext8 (b : Nat) : Nat := if b < 2^7 then b else b + (2^32 - 2^8)

/-- `(u32)(s32)(s16) h` for a halfword `h < 2^16`: sign extension to 32 bits. -/
def sext16 (h : Nat) : Nat := if h < 2^15 then h else h + (2^32 - 2^16)

/-- `GENMASK(h, l)` from lightrec.c, on a 64-bit host
(`__WORDSIZE = 64`): `((~0UL) << l) & (~0UL >> (63 - h))`. -/
def GENMASK (h l : Nat) : Nat :=
  (((2^64 - 1) <<< l) % 2^64) &&& ((2^64 - 1) >>> (63 - h))

/-- `kunseg`: strip the kseg0/kseg1 high bits of a guest address. -/
def kunseg (addr : Nat) : Nat :=
  if 0xa0000000 ≤ addr then addr - 0xa0000000
  else if 0x80000000 ≤ addr then addr - 0x80000000
  else addr

/-! ### Data model -/

/-- The primary opcode field `op->i.op`, restricted to the memory opcodes
dispatched by `lightrec_rw`; `META n` stands for every other value of the
6-bit field (the C `switch` sends those to its `default` case). -/
inductive PrimaryOp where
  | SB | SH | SW | SWL | SWR
  | LB | LBU | LH | LHU | LW | LWL | LWR
  | META (n : Nat)
deriving DecidableEq

/-- One disassembled opcode: the raw 32-bit word, the decoded primary
field and the 16-bit immediate. -/
structure Opcode where
  opcode : Nat
  op : PrimaryOp
  imm : Nat
deriving DecidableEq

/-- The MMIO callbacks of a map region (`struct lightrec_mem_map_ops`).
Loads are modelled as pure functions of the guest address; their C return
type is `u32` and, per the interface contract, loads return the
zero-extended datum.  Store callbacks are recorded as effects. -/
structure MemMapOps where
  lb : Nat → Nat
  lh : Nat → Nat
  lw : Nat → Nat

/-- One entry of the memory map (`struct lightrec_mem_map`). -/
structure MemMap where
  pc : Nat
  length : Nat
  address : Nat
  ops : Option MemMapOps

/-- Block exit flags. -/
inductive ExitFlag where
  | NORMAL
  | SEGFAULT
  | OTHER (n : Nat)
deriving DecidableEq

/-- A compiled block (`struct block`), with the native code represented
by the list of `(pc, opcode)` pairs that were actually emitted. -/
structure Block where
  pc : Nat
  kunseg_pc : Nat
  cycles : Nat
  opcode_list : List Opcode
  emitted : List (Nat × Opcode)
  code : Nat
deriving DecidableEq

/-- The fields of `struct lightrec_state` that the core reads or writes. -/
structure LightrecState where
  mem_map : List MemMap
  stop : Bool
  block_exit_flags : ExitFlag
  block_exit_cycles : Nat
  next_pc : Nat
  current : Option Block

/-- A store dispatched to an MMIO callback. -/
inductive RWEffect where
  | sb (addr data : Nat)
  | sh (addr data : Nat)
  | sw (addr data : Nat)
deriving DecidableEq

/-- The complete outcome of one `lightrec_rw` call: the returned `u32`,
the host memory afterwards, the state afterwards, the MMIO stores that
were dispatched, and the addresses passed to `ERROR` logging. -/
structure RWResult where
  value : Nat
  mem : Mem
  state : LightrecState
  effects : List RWEffect
  logged : List Nat

/-! ### The load/store engine -/

/-- `__segfault_cb`: sets `stop`, sets the exit flags to `SEGFAULT` and
logs the offending address. -/
def __segfault_cb (s : LightrecState) (addr : Nat) : LightrecState × List Nat :=
  ({ s with stop := true, block_exit_flags := .SEGFAULT }, [addr])

/-- `lightrec_rw_ops`: dispatch one opcode to the MMIO callbacks of a
map region.  Returns the `u32` result and the dispatched stores. -/
def lightrec_rw_ops (ops : MemMapOps) (op : Opcode) (addr data : Nat) :
    Nat × List RWEffect :=
  match op.op with
  | .SB => (0, [.sb addr (data % 2^8)])
  | .SH => (0, [.sh addr (data % 2^16)])
  | .SWL | .SWR | .SW => (0, [.sw addr data])
  | .LB => (sext8 (ops.lb addr % 2^8), [])
  | .LBU => (ops.lb addr % 2^32, [])
  | .LH => (sext16 (ops.lh addr % 2^16), [])
  | .LHU => (ops.lh addr % 2^32, [])
  | .LW | .LWL | .LWR | .META _ => (ops.lw addr % 2^32, [])

/-- The direct-memory arm of the `switch` in `lightrec_rw`: `kaddr` is
the kunseg'd guest address, `new_addr` the host address
`map->address + (kaddr - map->pc)`.  `new_addr & ~3` is written
`4 * (new_addr / 4)`. -/
def lightrec_rw_direct (s : LightrecState) (mem : Mem) (op : Opcode)
    (kaddr new_addr data : Nat) : RWResult :=
  match op.op with
  | .SB => ⟨0, writeU8 mem new_addr data, s, [], []⟩
  | .SH => ⟨0, writeU16 mem new_addr (data % 2^16), s, [], []⟩
  | .SWL =>
    let shift := kaddr % 4
    let mem_data := readU32 mem (4 * (new_addr / 4))
    let mask := GENMASK 31 (shift * 8 + 9)
    ⟨0, writeU32 mem (4 * (new_addr / 4))
        ((data >>> ((3 - shift) * 8)) ||| (mem_data &&& mask)), s, [], []⟩
  | .SWR =>
    let shift := kaddr % 4
    let mem_data := readU32 mem (4 * (new_addr / 4))
    let mask := (1 <<< (shift * 8)) - 1
    ⟨0, writeU32 mem (4 * (new_addr / 4))
        (((data <<< (shift * 8)) % 2^32) ||| (mem_data &&& mask)), s, [], []⟩
  | .SW => ⟨0, writeU32 mem new_addr data, s, [], []⟩
  | .LB => ⟨sext8 (readU8 mem new_addr), mem, s, [], []⟩
  | .LBU => ⟨readU8 mem new_addr, mem, s, [], []⟩
  | .LH => ⟨sext16 (readU16 mem new_addr), mem, s, [], []⟩
  | .LHU => ⟨readU16 mem new_addr, mem, s, [], []⟩
  | .LWL =>
    let shift := kaddr % 4
    let mem_data := readU32 mem (4 * (new_addr / 4))
    let mask := (1 <<< (24 - shift * 8)) - 1
    ⟨(data &&& mask) ||| ((mem_data <<< (24 - shift * 8)) % 2^32), mem, s, [], []⟩
  | .LWR =>
    let shift := kaddr % 4
    let mem_data := readU32 mem (4 * (new_addr / 4))
    let mask := GENMASK 31 (32 - shift * 8)
    ⟨(data &&& mask) ||| (mem_data >>> (shift * 8)), mem, s, [], []⟩
  | .LW | .META _ => ⟨readU32 mem new_addr, mem, s, [], []⟩

/-- The scan loop of `lightrec_rw`: try each map entry in order; an entry
with MMIO ops is tested against the pre-kunseg address, an entry without
ops against the kunseg address; when no entry matches, `__segfault_cb`
runs and 0 is returned.  All u32 comparisons wrap modulo `2^32`. -/
def lightrec_rw_scan (s : LightrecState) (mem : Mem) (op : Opcode)
    (addr kaddr data : Nat) : List MemMap → RWResult
  | [] =>
    ⟨0, mem, (__segfault_cb s addr).1, [], (__segfault_cb s addr).2⟩
  | m :: rest =>
    match m.ops with
    | some ops =>
      if addr < m.pc ∨ (m.pc + m.length) % 2^32 ≤ addr then
        lightrec_rw_scan s mem op addr kaddr data rest
      else
        ⟨(lightrec_rw_ops ops op addr data).1, mem, s,
          (lightrec_rw_ops ops op addr data).2, []⟩
    | none =>
      if kaddr < m.pc ∨ (m.pc + m.length) % 2^32 ≤ kaddr then
        lightrec_rw_scan s mem op addr kaddr data rest
      else
        lightrec_rw_direct s mem op kaddr (m.address + (kaddr - m.pc)) data

/-- `addr += (s16) op->i.imm` in u32 arithmetic. -/
def effective_addr (op : Opcode) (addr : Nat) : Nat :=
  (addr + sext16 (op.imm % 2^16)) % 2^32

/-- `lightrec_rw`: the load/store engine. -/
def lightrec_rw (s : LightrecState) (mem : Mem) (op : Opcode)
    (addr data : Nat) : RWResult :=
  lightrec_rw_scan s mem op (effective_addr op addr)
    (kunseg (effective_addr op addr)) data s.mem_map

/-! ### The spec's view of address resolution -/

/-- Containment of an address in a map entry, with the u32 wrap of
`pc + length` of the C comparison. -/
def in_map (a : Nat) (m : MemMap) : Bool :=
  decide (m.pc ≤ a) && decide (a < (m.pc + m.length) % 2^32)

/-- Whether a map entry matches: per the spec's words, an entry with MMIO
ops is matched on the pre-kunseg address, an entry without ops on the
kunseg address. -/
def map_match (addr kaddr : Nat) (m : MemMap) : Bool :=
  match m.ops with
  | some _ => in_map addr m
  | none => in_map kaddr m

/-- Modelled from the spec: `resolve(addr)` scans the entries in
init-time order and returns the first hit. -/
def spec_resolve (maps : List MemMap) (addr kaddr : Nat) : Option MemMap :=
  maps.find? (map_match addr kaddr)

/-! ### The recompiler driver -/

/-- The scan of `find_code_address`: first entry whose range (on the
kunseg address) contains the address; MMIO ops are not consulted here. -/
def find_code_aux (addr : Nat) : List MemMap → Option Nat
  | [] => none
  | m :: rest =>
    if m.pc ≤ addr ∧ addr < (m.pc + m.length) % 2^32 then
      some (m.address + (addr - m.pc))
    else find_code_aux addr rest

/-- `find_code_address`: host pointer of the code at a guest PC. -/
def find_code_address (maps : List MemMap) (pc : Nat) : Option Nat :=
  find_code_aux (kunseg pc) maps

/-- Return value of the external per-opcode emitter `lightrec_rec_opcode`. -/
inductive RecRet where
  | EMITTED
  | SKIP_DELAY_SLOT
deriving DecidableEq

/-- The per-opcode loop of `lightrec_recompile_block`: accumulates
`block->cycles` (a u32) for every opcode, skips the emission of an opcode
after a `SKIP_DELAY_SLOT` and of all-zero NOPs, and records the emitted
`(pc, opcode)` pairs.  `pc` advances by 4 per opcode, wrapping as a u32. -/
def recompile_loop (cyclesOf : Opcode → Nat) (recOpcode : Opcode → Nat → RecRet) :
    List Opcode → Nat → Bool → Nat → Nat × List (Nat × Opcode)
  | [], _, _, cycles => (cycles, [])
  | elm :: rest, pc, skip_next, cycles =>
    let cycles := (cycles + cyclesOf elm) % 2^32
    if skip_next then
      recompile_loop cyclesOf recOpcode rest ((pc + 4) % 2^32) false cycles
    else if elm.opcode = 0 then
      recompile_loop cyclesOf recOpcode rest ((pc + 4) % 2^32) false cycles
    else
      let r := recompile_loop cyclesOf recOpcode rest ((pc + 4) % 2^32)
        (decide (recOpcode elm pc = .SKIP_DELAY_SLOT)) cycles
      (r.1, (pc, elm) :: r.2)

/-- The external collaborators and allocation outcomes that
`lightrec_recompile_block` and `lightrec_execute` depend on. -/
structure Externals where
  disassemble : Nat → Option (List Opcode)
  cyclesOf : Opcode → Nat
  recOpcode : Opcode → Nat → RecRet
  mallocBlock : Bool
  jitNewState : Bool
  runBlock : LightrecState → Block → LightrecState

/-- `lightrec_recompile_block`: resolve the PC, disassemble, emit; `none`
when the PC is unmapped or an allocation fails. -/
def lightrec_recompile_block (ext : Externals) (maps : List MemMap) (pc : Nat) :
    Option Block :=
  match find_code_address maps pc with
  | none => none
  | some code =>
    if ext.mallocBlock = false then none
    else
      match ext.disassemble code with
      | none => none
      | some list =>
        if ext.jitNewState = false then none
        else
          some ⟨pc, kunseg pc,
            (recompile_loop ext.cyclesOf ext.recOpcode list pc false 0).1,
            list,
            (recompile_loop ext.cyclesOf ext.recOpcode list pc false 0).2,
            code⟩

/-! ### The executor -/

/-- The observable outcome of one `lightrec_execute` call: the returned
PC, the block registered in the cache during the call (if any), whether
the wrapper trampoline was invoked, the state afterwards, and the PCs
passed to `ERROR` logging. -/
structure ExecOutcome where
  ret : Nat
  registered : Option Block
  wrapper_called : Bool
  state : LightrecState
  logged : List Nat

/-- The tail of `lightrec_execute` once a block is at hand: reset the
exit flags and cycles, set `state->current`, run the block through the
wrapper, and return `state->next_pc`. -/
def exec_run (ext : Externals) (s : LightrecState) (b : Block)
    (registered : Option Block) : ExecOutcome :=
  let s2 := ext.runBlock
    { s with block_exit_flags := .NORMAL, block_exit_cycles := 0, current := some b } b
  ⟨s2.next_pc, registered, true, s2, []⟩

/-- `lightrec_execute`: look the PC up in the block cache (an external
collaborator, passed as `find`); on a miss recompile and register; when
recompilation fails, log and return the PC unchanged. -/
def lightrec_execute (ext : Externals) (find : Nat → Option Block)
    (s : LightrecState) (pc : Nat) : ExecOutcome :=
  match find pc with
  | some block => exec_run ext s block none
  | none =>
    match lightrec_recompile_block ext s.mem_map pc with
    | none => ⟨pc, none, false, s, [pc]⟩
    | some block => exec_run ext s block (some block)

/-! ### Initialisation -/

/-- The allocation outcomes during `lightrec_init`. -/
structure InitAllocs where
  calloc : Bool
  wrapper_malloc : Bool
  wrapper_jit : Bool
  lookup_malloc : Bool
  lookup_jit : Bool

/-- The initialisation-relevant fields of the returned state. -/
structure InitStateModel where
  wrapper : Option Unit
  addr_lookup_block : Unit
  nb_maps : Nat
deriving DecidableEq

/-- What a call to `lightrec_init` does: either it returns a (possibly
partially constructed) state, or it dereferences a NULL pointer. -/
inductive InitOutcome where
  | ok (st : InitStateModel)
  | crash
deriving DecidableEq

/-- `generate_wrapper_block`: NULL when `malloc` or `jit_new_state` fails. -/
def generate_wrapper_block (a : InitAllocs) : Option Unit :=
  if a.wrapper_malloc = false then none
  else if a.wrapper_jit = false then none
  else some ()

/-- `generate_address_lookup_block`: NULL when `malloc` or
`jit_new_state` fails. -/
def generate_address_lookup_block (a : InitAllocs) : Option Unit :=
  if a.lookup_malloc = false then none
  else if a.lookup_jit = false then none
  else some ()

/-- `lightrec_init`.  The C code checks none of its allocations: a failed
`calloc` crashes on `state->block_cache = ...`; a failed
`generate_wrapper_block` is stored and the state is returned anyway; a
failed `generate_address_lookup_block` crashes on
`state->addr_lookup_block->function`. -/
def lightrec_init (a : InitAllocs) (nb : Nat) : InitOutcome :=
  if a.calloc = false then .crash
  else
    match generate_address_lookup_block a with
    | none => .crash
    | some alb => .ok ⟨generate_wrapper_block a, alb, nb⟩

/-! ### Concrete test fixtures -/

/-- All-zero host memory. -/
def mem0 : Mem := fun _ => 0

/-- Host memory holding the little-endian word `0xAABBCCDD` at address 0. -/
def memAB : Mem := fun a =>
  if a = 0 then 0xDD else if a = 1 then 0xCC
  else if a = 2 then 0xBB else if a = 3 then 0xAA else 0

/-- Host memory in which every byte reads `0xFF`. -/
def memFF : Mem := fun _ => 0xFF

/-- A direct (non-MMIO) map entry covering guest `[0, 0x200000)`. -/
def direct_map : MemMap := ⟨0, 0x200000, 0, none⟩

/-- MMIO callbacks with fixed load results. -/
def test_ops : MemMapOps := ⟨fun _ => 0xFF, fun _ => 0xBEEF, fun _ => 0xCAFEBABE⟩

/-- An MMIO map entry covering guest `[0x1f801000, 0x1f803000)`. -/
def mmio_map : MemMap := ⟨0x1f801000, 0x2000, 0x10000, some test_ops⟩

/-- A state whose memory map is the single direct entry. -/
def test_state : LightrecState := ⟨[direct_map], false, .NORMAL, 0, 0, none⟩

/-- A state with an MMIO entry followed by the direct entry. -/
def mmio_state : LightrecState := ⟨[mmio_map, direct_map], false, .NORMAL, 0, 0, none⟩

/-- A state with an empty memory map. -/
def empty_state : LightrecState := ⟨[], false, .NORMAL, 0, 0, none⟩

/-- Externals for the recompiler tests: the disassembler yields a NOP, a
real opcode whose emission requests a delay-slot skip, and the skipped
slot; every opcode costs 2 cycles. -/
def ext0 : Externals :=
  ⟨fun _ => some [⟨0, .META 0, 0⟩, ⟨5, .META 1, 0⟩, ⟨0, .META 2, 0⟩],
    fun _ => 2, fun _ _ => .SKIP_DELAY_SLOT, true, true, fun s _ => s⟩

/-- The block `ext0` produces at PC `0x100` over `direct_map`. -/
def test_block : Block :=
  ⟨0x100, 0x100, 6, [⟨0, .META 0, 0⟩, ⟨5, .META 1, 0⟩, ⟨0, .META 2, 0⟩],
    [(0x104, ⟨5, .META 1, 0⟩)], 0x100⟩

/-- An always-missing block cache. -/
def find0 : Nat → Option Block := fun _ => none

/-- The scenario of the round-trip property: SWL then SWR of `v` at
guest address `A`, then LWL into register value 0 and LWR feeding in the
LWL result; yields the final loaded value. -/
def rw_roundtrip (s : LightrecState) (mem : Mem) (A v : Nat) : Nat :=
  let r1 := lightrec_rw s mem ⟨0, .SWL, 0⟩ A v
  let r2 := lightrec_rw r1.state r1.mem ⟨0, .SWR, 0⟩ A v
  let r3 := lightrec_rw r2.state r2.mem ⟨0, .LWL, 0⟩ A 0
  let r4 := lightrec_rw r3.state r3.mem ⟨0, .LWR, 0⟩ A r3.value
  r4.value

/-! ### Helper lemmas -/

theorem readU8_writeU8_same (m : Mem) (a v : Nat) :
    readU8 (writeU8 m a v) a = v % 2^8 := by
  unfold readU8 writeU8
  rw [if_pos rfl]
  omega

theorem readU8_writeU8_other (m : Mem) (a v x : Nat) (h : x ≠ a) :
    readU8 (writeU8 m a v) x = readU8 m x := by
  simp only [readU8, writeU8, if_neg h]

theorem readU8_writeU32 (m : Mem) (a v : Nat) :
    readU8 (writeU32 m a v) a = v % 2^8 := by
  unfold writeU32
  rw [readU8_writeU8_other _ _ _ _ (by omega), readU8_writeU8_other _ _ _ _ (by omega),
    readU8_writeU8_other _ _ _ _ (by omega), readU8_writeU8_same]

theorem readU8_writeU32_1 (m : Mem) (a v : Nat) :
    readU8 (writeU32 m a v) (a+1) = v / 2^8 % 2^8 := by
  unfold writeU32
  rw [readU8_writeU8_other _ _ _ _ (by omega), readU8_writeU8_other _ _ _ _ (by omega),
    readU8_writeU8_same]

theorem readU8_writeU32_2 (m : Mem) (a v : Nat) :
    readU8 (writeU32 m a v) (a+2) = v / 2^16 % 2^8 := by
  unfold writeU32
  rw [readU8_writeU8_other _ _ _ _ (by omega), readU8_writeU8_same]

theorem readU8_writeU32_3 (m : Mem) (a v : Nat) :
    readU8 (writeU32 m a v) (a+3) = v / 2^24 % 2^8 := by
  unfold writeU32
  rw [readU8_writeU8_same]

theorem readU32_writeU32 (m : Mem) (a v : Nat) :
    readU32 (writeU32 m a v) a = v % 2^32 := by
  unfold readU32
  rw [readU8_writeU32, readU8_writeU32_1, readU8_writeU32_2, readU8_writeU32_3]
  omega

theorem readU32_lt (m : Mem) (a : Nat) : readU32 m a < 2^32 := by
  unfold readU32 readU8
  omega

theorem kunseg_mod4 (a : Nat) : kunseg a % 4 = a % 4 := by
  unfold kunseg
  split_ifs <;> omega

/-- The scan loop of `lightrec_rw` agrees with the spec's `resolve`:
first entry in init-time order that matches (MMIO entries on the
pre-kunseg address, plain entries on the kunseg address) wins, and a
total miss runs the segfault callback. -/
theorem lightrec_rw_scan_resolve (s : LightrecState) (mem : Mem) (op : Opcode)
    (addr kaddr data : Nat) (maps : List MemMap) :
    lightrec_rw_scan s mem op addr kaddr data maps =
      match spec_resolve maps addr kaddr with
      | none =>
        ⟨0, mem, { s with stop := true, block_exit_flags := .SEGFAULT }, [], [addr]⟩
      | some m =>
        match m.ops with
        | some ops =>
          ⟨(lightrec_rw_ops ops op addr data).1, mem, s,
            (lightrec_rw_ops ops op addr data).2, []⟩
        | none => lightrec_rw_direct s mem op kaddr (m.address + (kaddr - m.pc)) data := by
  induction maps with
  | nil => rfl
  | cons m rest ih =>
    rcases hops : m.ops with _ | ops
    · by_cases hc : kaddr < m.pc ∨ (m.pc + m.length) % 2^32 ≤ kaddr
      · have hm : ¬ (map_match addr kaddr m = true) := by
          simp only [map_match, hops, in_map, Bool.and_eq_true, decide_eq_true_eq]
          omega
        simp only [lightrec_rw_scan, hops, if_pos hc, spec_resolve,
          List.find?_cons_of_neg _ hm] at ih ⊢
        exact ih
      · have hm : map_match addr kaddr m = true := by
          simp only [map_match, hops, in_map, Bool.and_eq_true, decide_eq_true_eq]
          omega
        simp only [lightrec_rw_scan, hops, if_neg hc, spec_resolve,
          List.find?_cons_of_pos _ hm]
    · by_cases hc : addr < m.pc ∨ (m.pc + m.length) % 2^32 ≤ addr
      · have hm : ¬ (map_match addr kaddr m = true) := by
          simp only [map_match, hops, in_map, Bool.and_eq_true, decide_eq_true_eq]
          omega
        simp only [lightrec_rw_scan, hops, if_pos hc, spec_resolve,
          List.find?_cons_of_neg _ hm] at ih ⊢
        exact ih
      · have hm : map_match addr kaddr m = true := by
          simp only [map_match, hops, in_map, Bool.and_eq_true, decide_eq_true_eq]
          omega
        simp only [lightrec_rw_scan, hops, if_neg hc, spec_resolve,
          List.find?_cons_of_pos _ hm]

theorem testBit_GENMASK_31 (l i : Nat) (hl : l ≤ 64) :
    (GENMASK 31 l).testBit i = (decide (l ≤ i) && decide (i < 32)) := by
  unfold GENMASK
  have h63 : (63:Nat) - 31 = 32 := by norm_num
  rw [h63]
  simp only [Nat.testBit_and, Nat.testBit_mod_two_pow, Nat.testBit_shiftLeft,
    Nat.testBit_shiftRight, Nat.testBit_two_pow_sub_one, ge_iff_le]
  by_cases h1 : l ≤ i <;> by_cases h2 : i < 32 <;>
    simp [h1, h2] <;> omega

theorem GENMASK_31_lt (l : Nat) (hl : l ≤ 64) : GENMASK 31 l < 2^32 := by
  apply Nat.lt_pow_two_of_testBit
  intro i hi
  rw [testBit_GENMASK_31 l i hl]
  simp only [Bool.and_eq_false_iff, decide_eq_false_iff_not, not_lt]
  omega

theorem testBit_ge_32 (x i : Nat) (hx : x < 2^32) (hi : 32 ≤ i) :
    x.testBit i = false := by
  apply Nat.testBit_lt_two_pow
  calc x < 2^32 := hx
    _ ≤ 2^i := Nat.pow_le_pow_right (by norm_num) hi

/-- The word written by the direct SWL case, with its low `shift+1` bytes
extracted: they are the high `shift+1` bytes of the store datum. -/
theorem swl_word_low (data M sh : Nat) (hd : data < 2^32) (hs : sh < 4) :
    ((data >>> ((3 - sh) * 8)) ||| (M &&& GENMASK 31 (sh * 8 + 9))) % 2^((sh + 1) * 8)
      = data >>> ((3 - sh) * 8) := by
  apply Nat.eq_of_testBit_eq
  intro i
  simp only [Nat.testBit_mod_two_pow, Nat.testBit_or, Nat.testBit_and,
    testBit_GENMASK_31 _ _ (by omega : sh * 8 + 9 ≤ 64), Nat.testBit_shiftRight]
  by_cases h1 : i < (sh + 1) * 8
  · have h2 : ¬ (sh * 8 + 9 ≤ i) := by omega
    simp [h1, h2]
  · have h3 : data.testBit ((3 - sh) * 8 + i) = false :=
      testBit_ge_32 data _ hd (by omega)
    simp [h1, h3]

/-- The word written by the direct SWL case preserves the bits of the
prior memory word selected by `GENMASK(31, shift*8 + 9)`. -/
theorem swl_word_mask (data M sh : Nat) (hd : data < 2^32) (hs : sh < 4) :
    ((data >>> ((3 - sh) * 8)) ||| (M &&& GENMASK 31 (sh * 8 + 9))) &&& GENMASK 31 (sh * 8 + 9)
      = M &&& GENMASK 31 (sh * 8 + 9) := by
  apply Nat.eq_of_testBit_eq
  intro i
  simp only [Nat.testBit_or, Nat.testBit_and,
    testBit_GENMASK_31 _ _ (by omega : sh * 8 + 9 ≤ 64), Nat.testBit_shiftRight]
  by_cases h1 : sh * 8 + 9 ≤ i ∧ i < 32
  · have h3 : data.testBit ((3 - sh) * 8 + i) = false :=
      testBit_ge_32 data _ hd (by omega)
    simp [h1.1, h1.2, h3]
  · rcases Decidable.not_and_iff_or_not.mp h1 with h | h <;> simp [h]

/-- The word written by the direct SWL case clears bit `shift*8 + 8`
(the bit between the stored bytes and the `GENMASK`-preserved bits). -/
theorem swl_word_gap (data M sh : Nat) (hd : data < 2^32) (hs : sh < 4) :
    ((data >>> ((3 - sh) * 8)) ||| (M &&& GENMASK 31 (sh * 8 + 9))).testBit (sh * 8 + 8)
      = false := by
  simp only [Nat.testBit_or, Nat.testBit_and,
    testBit_GENMASK_31 _ _ (by omega : sh * 8 + 9 ≤ 64), Nat.testBit_shiftRight]
  have h3 : data.testBit ((3 - sh) * 8 + (sh * 8 + 8)) = false :=
    testBit_ge_32 data _ hd (by omega)
  have h2 : ¬ (sh * 8 + 9 ≤ sh * 8 + 8) := by omega
  simp [h2, h3]

/-- The word written by the direct SWR case preserves the low `shift*8`
bits of the prior memory word. -/
theorem swr_word_low (data M sh : Nat) (_hs : sh < 4) :
    (((data <<< (sh * 8)) % 2^32) ||| (M &&& ((1 <<< (sh * 8)) - 1))) % 2^(sh * 8)
      = M % 2^(sh * 8) := by
  apply Nat.eq_of_testBit_eq
  intro i
  simp only [Nat.one_shiftLeft, Nat.testBit_mod_two_pow, Nat.testBit_or, Nat.testBit_and,
    Nat.testBit_two_pow_sub_one, Nat.testBit_shiftLeft, ge_iff_le]
  by_cases h1 : i < sh * 8
  · have h2 : ¬ (sh * 8 ≤ i) := by omega
    simp [h1, h2]
  · simp [h1]

/-- The word written by the direct SWR case, with its high `4 - shift`
bytes extracted: they are the low `4 - shift` bytes of the store datum. -/
theorem swr_word_high (data M sh : Nat) (hs : sh < 4) :
    (((data <<< (sh * 8)) % 2^32) ||| (M &&& ((1 <<< (sh * 8)) - 1))) >>> (sh * 8)
      = data % 2^((4 - sh) * 8) := by
  apply Nat.eq_of_testBit_eq
  intro i
  simp only [Nat.one_shiftLeft, Nat.testBit_shiftRight, Nat.testBit_mod_two_pow,
    Nat.testBit_or, Nat.testBit_and, Nat.testBit_two_pow_sub_one, Nat.testBit_shiftLeft,
    ge_iff_le, Nat.le_add_right, decide_True, Bool.true_and, Nat.add_sub_cancel_left]
  have h2 : ¬ (sh * 8 + i < sh * 8) := by omega
  by_cases h1 : sh * 8 + i < 32
  · have h3 : i < (4 - sh) * 8 := by omega
    simp [h1, h2, h3]
  · have h3 : ¬ (i < (4 - sh) * 8) := by omega
    simp [h1, h2, h3]

theorem effective_addr_zero (op : Opcode) (A : Nat) (h : op.imm = 0) (hA : A < 2^32) :
    effective_addr op A = A := by
  norm_num [effective_addr, h, sext16]
  omega

theorem kunseg_kseg1 (x : Nat) : kunseg (0xa0000000 + x) = x := by
  unfold kunseg
  split_ifs <;> omega

theorem kunseg_kseg0 (x : Nat) (h : x < 0x20000000) : kunseg (0x80000000 + x) = x := by
  unfold kunseg
  split_ifs <;> omega

/-- When the resolution lands on a direct entry, `lightrec_rw` is the
direct-memory arm at host address `map->address + (kaddr - map->pc)`. -/
theorem rw_reduce_direct (s : LightrecState) (mem : Mem) (op : Opcode)
    (addr data : Nat) (e : MemMap)
    (hres : spec_resolve s.mem_map (effective_addr op addr)
      (kunseg (effective_addr op addr)) = some e)
    (hops : e.ops = none) :
    lightrec_rw s mem op addr data =
      lightrec_rw_direct s mem op (kunseg (effective_addr op addr))
        (e.address + (kunseg (effective_addr op addr) - e.pc)) data := by
  unfold lightrec_rw
  rw [lightrec_rw_scan_resolve]
  simp only [hres, hops]

/-- When the resolution lands on an MMIO entry, `lightrec_rw` is the
callback dispatch `lightrec_rw_ops` on the pre-kunseg address. -/
theorem rw_reduce_ops (s : LightrecState) (mem : Mem) (op : Opcode)
    (addr data : Nat) (e : MemMap) (ops : MemMapOps)
    (hres : spec_resolve s.mem_map (effective_addr op addr)
      (kunseg (effective_addr op addr)) = some e)
    (hops : e.ops = some ops) :
    lightrec_rw s mem op addr data =
      ⟨(lightrec_rw_ops ops op (effective_addr op addr) data).1, mem, s,
        (lightrec_rw_ops ops op (effective_addr op addr) data).2, []⟩ := by
  unfold lightrec_rw
  rw [lightrec_rw_scan_resolve]
  simp only [hres, hops]

theorem rw_direct_SWL (s : LightrecState) (mem : Mem) (r i K host v : Nat) :
    lightrec_rw_direct s mem ⟨r, .SWL, i⟩ K host v =
      ⟨0, writeU32 mem (4 * (host / 4))
          ((v >>> ((3 - K % 4) * 8)) |||
            (readU32 mem (4 * (host / 4)) &&& GENMASK 31 ((K % 4) * 8 + 9))),
        s, [], []⟩ := rfl

theorem rw_direct_SWR (s : LightrecState) (mem : Mem) (r i K host v : Nat) :
    lightrec_rw_direct s mem ⟨r, .SWR, i⟩ K host v =
      ⟨0, writeU32 mem (4 * (host / 4))
          (((v <<< ((K % 4) * 8)) % 2^32) |||
            (readU32 mem (4 * (host / 4)) &&& ((1 <<< ((K % 4) * 8)) - 1))),
        s, [], []⟩ := rfl

theorem rw_direct_LWL (s : LightrecState) (mem : Mem) (r i K host v : Nat) :
    lightrec_rw_direct s mem ⟨r, .LWL, i⟩ K host v =
      ⟨(v &&& ((1 <<< (24 - (K % 4) * 8)) - 1)) |||
          ((readU32 mem (4 * (host / 4)) <<< (24 - (K % 4) * 8)) % 2^32),
        mem, s, [], []⟩ := rfl

theorem rw_direct_LWR (s : LightrecState) (mem : Mem) (r i K host v : Nat) :
    lightrec_rw_direct s mem ⟨r, .LWR, i⟩ K host v =
      ⟨(v &&& GENMASK 31 (32 - (K % 4) * 8)) |||
          (readU32 mem (4 * (host / 4)) >>> ((K % 4) * 8)),
        mem, s, [], []⟩ := rfl

theorem GENMASK_31_32 : GENMASK 31 32 = 0 := by
  apply Nat.eq_of_testBit_eq
  intro i
  rw [testBit_GENMASK_31 32 i (by omega), Nat.zero_testBit]
  simp only [Bool.and_eq_false_iff, decide_eq_false_iff_not, not_le, not_lt]
  omega

/-- The cycle accumulator of the recompile loop: every opcode in the
list contributes, whether or not its emission is skipped. -/
theorem recompile_loop_cycles (cy : Opcode → Nat) (ro : Opcode → Nat → RecRet) :
    ∀ (list : List Opcode) (pc : Nat) (skip : Bool) (c : Nat), c < 2^32 →
      (recompile_loop cy ro list pc skip c).1 = (c + (list.map cy).sum) % 2^32 := by
  intro list
  induction list with
  | nil =>
    intro pc skip c hc
    simp only [recompile_loop, List.map_nil, List.sum_nil, Nat.add_zero]
    exact (Nat.mod_eq_of_lt hc).symm
  | cons elm rest ih =>
    intro pc skip c hc
    have hlt : (c + cy elm) % 2^32 < 2^32 := Nat.mod_lt _ (by norm_num)
    simp only [recompile_loop, List.map_cons, List.sum_cons]
    split_ifs with h1 h2
    · rw [ih _ _ _ hlt, Nat.mod_add_mod, Nat.add_assoc]
    · rw [ih _ _ _ hlt, Nat.mod_add_mod, Nat.add_assoc]
    · rw [ih _ _ _ hlt, Nat.mod_add_mod, Nat.add_assoc]

/-! ### Claim theorems -/

/-- C3: for every guest address, `lightrec_rw`'s memory-map resolution
scans the entries in init-time order and takes the first hit; an entry
with non-null MMIO ops is matched against the pre-kunseg address while an
entry without ops is matched against the kunseg address; an address equal
to `pc_base + length - 1` of an entry is contained in it, and an address
equal to `pc_base + length` is not. -/
theorem rw_resolution_first_hit :
    (∀ (s : LightrecState) (mem : Mem) (op : Opcode) (addr data : Nat),
      lightrec_rw s mem op addr data =
        match spec_resolve s.mem_map (effective_addr op addr)
            (kunseg (effective_addr op addr)) with
        | none =>
          ⟨0, mem, { s with stop := true, block_exit_flags := .SEGFAULT }, [],
            [effective_addr op addr]⟩
        | some m =>
          match m.ops with
          | some ops =>
            ⟨(lightrec_rw_ops ops op (effective_addr op addr) data).1, mem, s,
              (lightrec_rw_ops ops op (effective_addr op addr) data).2, []⟩
          | none =>
            lightrec_rw_direct s mem op (kunseg (effective_addr op addr))
              (m.address + (kunseg (effective_addr op addr) - m.pc)) data)
    ∧ (∀ m : MemMap, 0 < m.length → m.pc + m.length < 2^32 →
        in_map (m.pc + m.length - 1) m = true ∧ in_map (m.pc + m.length) m = false) := by
  constructor
  · intro s mem op addr data
    unfold lightrec_rw
    exact lightrec_rw_scan_resolve s mem op _ _ data s.mem_map
  · intro m h1 h2
    unfold in_map
    rw [Nat.mod_eq_of_lt h2]
    constructor
    · simp only [Bool.and_eq_true, decide_eq_true_eq]
      omega
    · have hlt : ¬ (m.pc + m.length < m.pc + m.length) := by omega
      simp [hlt]

/-- C3 witness: region boundary containment for the concrete map entry. -/
theorem rw_resolution_first_hit_witness :
    0 < direct_map.length ∧ direct_map.pc + direct_map.length < 2^32 ∧
    in_map (direct_map.pc + direct_map.length - 1) direct_map = true ∧
    in_map (direct_map.pc + direct_map.length) direct_map = false :=
  ⟨by decide, by decide,
    (rw_resolution_first_hit.2 direct_map (by decide) (by decide)).1,
    (rw_resolution_first_hit.2 direct_map (by decide) (by decide)).2⟩

/-- C4: when the effective address is contained in no memory-map entry,
`lightrec_rw` sets `stop`, sets the exit flags to `SEGFAULT`, logs the
offending address and returns 0; no other state field changes, memory is
untouched and no MMIO store is dispatched. -/
theorem rw_segfault_semantics (s : LightrecState) (mem : Mem) (op : Opcode)
    (addr data : Nat)
    (h : spec_resolve s.mem_map (effective_addr op addr)
      (kunseg (effective_addr op addr)) = none) :
    lightrec_rw s mem op addr data =
      ⟨0, mem, { s with stop := true, block_exit_flags := .SEGFAULT }, [],
        [effective_addr op addr]⟩ := by
  unfold lightrec_rw
  rw [lightrec_rw_scan_resolve]
  simp only [h]

/-- C4 witness: a load through an empty memory map segfaults. -/
theorem rw_segfault_semantics_witness :
    spec_resolve empty_state.mem_map (effective_addr ⟨0, .LW, 0⟩ 5)
        (kunseg (effective_addr ⟨0, .LW, 0⟩ 5)) = none ∧
    lightrec_rw empty_state mem0 ⟨0, .LW, 0⟩ 5 0 =
      ⟨0, mem0, { empty_state with stop := true, block_exit_flags := .SEGFAULT }, [],
        [effective_addr ⟨0, .LW, 0⟩ 5]⟩ :=
  ⟨rfl, rw_segfault_semantics empty_state mem0 ⟨0, .LW, 0⟩ 5 0 rfl⟩

/-- C5: `kunseg` subtracts `0xA0000000` from addresses at or above it,
else `0x80000000` from addresses at or above it, else leaves the address
unchanged; the two kernel segments mirror each other, and a store through
`0xA000_00xx` followed by a load through `0x8000_00xx` reads the stored
byte from the same direct-memory location. -/
theorem kunseg_semantics :
    (∀ a : Nat, kunseg a =
      if 0xa0000000 ≤ a then a - 0xa0000000
      else if 0x80000000 ≤ a then a - 0x80000000 else a)
    ∧ (∀ x : Nat, x < 0x20000000 →
        kunseg (0xa0000000 + x) = kunseg (0x80000000 + x))
    ∧ (∀ (s : LightrecState) (mem : Mem) (e : MemMap) (x data : Nat),
        x < 0x20000000 →
        spec_resolve s.mem_map (0xa0000000 + x) x = some e → e.ops = none →
        spec_resolve s.mem_map (0x80000000 + x) x = some e →
        (lightrec_rw (lightrec_rw s mem ⟨0, .SB, 0⟩ (0xa0000000 + x) data).state
            (lightrec_rw s mem ⟨0, .SB, 0⟩ (0xa0000000 + x) data).mem
            ⟨0, .LBU, 0⟩ (0x80000000 + x) 0).value = data % 2^8) := by
  refine ⟨fun a => rfl, fun x hx => by rw [kunseg_kseg1, kunseg_kseg0 x hx], ?_⟩
  intro s mem e x data hx hres1 hops hres2
  have hA1 : effective_addr ⟨0, .SB, 0⟩ (0xa0000000 + x) = 0xa0000000 + x :=
    effective_addr_zero _ _ rfl (by omega)
  have hA2 : effective_addr ⟨0, .LBU, 0⟩ (0x80000000 + x) = 0x80000000 + x :=
    effective_addr_zero _ _ rfl (by omega)
  have hk1 : kunseg (0xa0000000 + x) = x := kunseg_kseg1 x
  have hk2 : kunseg (0x80000000 + x) = x := kunseg_kseg0 x hx
  have h1 := rw_reduce_direct s mem ⟨0, .SB, 0⟩ (0xa0000000 + x) data e
    (by rw [hA1, hk1]; exact hres1) hops
  rw [hA1, hk1] at h1
  have hsb : lightrec_rw_direct s mem ⟨0, .SB, 0⟩ x (e.address + (x - e.pc)) data =
      ⟨0, writeU8 mem (e.address + (x - e.pc)) data, s, [], []⟩ := rfl
  rw [h1, hsb]
  have h2 := rw_reduce_direct s (writeU8 mem (e.address + (x - e.pc)) data)
    ⟨0, .LBU, 0⟩ (0x80000000 + x) 0 e (by rw [hA2, hk2]; exact hres2) hops
  rw [hA2, hk2] at h2
  dsimp only
  rw [h2]
  exact readU8_writeU8_same mem (e.address + (x - e.pc)) data

/-- C5 witness: a byte stored through `0xA0000010` is read back through
`0x80000010`. -/
theorem kunseg_semantics_witness :
    (0x10 : Nat) < 0x20000000 ∧
    spec_resolve test_state.mem_map (0xa0000000 + 0x10) 0x10 = some direct_map ∧
    spec_resolve test_state.mem_map (0x80000000 + 0x10) 0x10 = some direct_map ∧
    (lightrec_rw (lightrec_rw test_state mem0 ⟨0, .SB, 0⟩ (0xa0000000 + 0x10) 0xAB).state
        (lightrec_rw test_state mem0 ⟨0, .SB, 0⟩ (0xa0000000 + 0x10) 0xAB).mem
        ⟨0, .LBU, 0⟩ (0x80000000 + 0x10) 0).value = 0xAB % 2^8 :=
  ⟨by decide, rfl, rfl,
    kunseg_semantics.2.2 test_state mem0 direct_map 0x10 0xAB (by decide) rfl rfl rfl⟩

/-- C6: the `cycles` field of a block produced by
`lightrec_recompile_block` is the u32 sum of the cycle costs of every
opcode of its list, NOPs and skipped delay slots included; exactly the
sum whenever it fits in 32 bits. -/
theorem recompile_block_cycles (ext : Externals) (maps : List MemMap) (pc : Nat)
    (b : Block) (h : lightrec_recompile_block ext maps pc = some b) :
    b.cycles = (b.opcode_list.map ext.cyclesOf).sum % 2^32 ∧
    ((b.opcode_list.map ext.cyclesOf).sum < 2^32 →
      b.cycles = (b.opcode_list.map ext.cyclesOf).sum) := by
  unfold lightrec_recompile_block at h
  cases hfc : find_code_address maps pc with
  | none => simp [hfc] at h
  | some code =>
    simp only [hfc] at h
    cases hmb : ext.mallocBlock with
    | false => simp [hmb] at h
    | true =>
      simp only [hmb] at h
      cases hdis : ext.disassemble code with
      | none => simp [hdis] at h
      | some list =>
        simp only [hdis] at h
        cases hjit : ext.jitNewState with
        | false => simp [hjit] at h
        | true =>
          simp only [hjit, if_neg (by simp : ¬ (true = false))] at h
          injection h with hb
          subst hb
          have hc := recompile_loop_cycles ext.cyclesOf ext.recOpcode list pc false 0
            (by norm_num)
          rw [Nat.zero_add] at hc
          dsimp only
          exact ⟨hc, fun hlt => by rw [hc, Nat.mod_eq_of_lt hlt]⟩

/-- C6 witness: the fixture block has cycles 6 = 2 + 2 + 2, counting the
NOP and the skipped delay slot. -/
theorem recompile_block_cycles_witness :
    lightrec_recompile_block ext0 [direct_map] 0x100 = some test_block ∧
    (test_block.opcode_list.map ext0.cyclesOf).sum < 2^32 ∧
    test_block.cycles = (test_block.opcode_list.map ext0.cyclesOf).sum :=
  ⟨rfl, by decide,
    (recompile_block_cycles ext0 [direct_map] 0x100 test_block rfl).2 (by decide)⟩

/-- C7 (code bug in `lightrec_init`): the C code checks none of its
allocations.  A failed address-lookup-block allocation crashes on the
`state->addr_lookup_block->function` dereference instead of returning
NULL; a failed wrapper allocation returns a partially constructed state
whose `wrapper` is NULL; only the happy path returns a complete state. -/
theorem init_unchecked_allocations :
    lightrec_init ⟨true, true, true, false, true⟩ 4 = .crash ∧
    lightrec_init ⟨true, false, true, true, true⟩ 4 = .ok ⟨none, (), 4⟩ ∧
    lightrec_init ⟨true, true, true, true, true⟩ 4 = .ok ⟨some (), (), 4⟩ :=
  ⟨rfl, rfl, rfl⟩

/-- C8: when the block cache misses and recompilation returns NULL,
`lightrec_execute` logs the PC and returns it unchanged, registers
nothing, does not invoke the wrapper trampoline, and leaves the state
untouched. -/
theorem execute_recompile_failure (ext : Externals) (find : Nat → Option Block)
    (s : LightrecState) (pc : Nat) (hfind : find pc = none)
    (hrec : lightrec_recompile_block ext s.mem_map pc = none) :
    lightrec_execute ext find s pc = ⟨pc, none, false, s, [pc]⟩ := by
  unfold lightrec_execute
  simp only [hfind, hrec]

/-- C8 witness: executing at an unmapped PC with an empty cache. -/
theorem execute_recompile_failure_witness :
    find0 7 = none ∧
    lightrec_recompile_block ext0 empty_state.mem_map 7 = none ∧
    lightrec_execute ext0 find0 empty_state 7 = ⟨7, none, false, empty_state, [7]⟩ :=
  ⟨rfl, rfl, execute_recompile_failure ext0 find0 empty_state 7 rfl rfl⟩

/-- C1 counterexample: at shift 0 the code's SWL stores only the single
high byte of `data_in` (the word becomes `0xAABBCC11`, not
`0x11223344` as storing the high `4 - shift = 4` bytes would give), and
the code's SWR stores all four bytes (the word's high byte is `0x11`,
not the low byte `0x44` of `data_in` as storing the low
`shift + 1 = 1` byte into the high bytes would give). -/
theorem swl_swr_claimed_bytecount_cex :
    readU32 (lightrec_rw test_state memAB ⟨0, .SWL, 0⟩ 0 0x11223344).mem 0
        = 0xAABBCC11 ∧
    ¬ (readU32 (lightrec_rw test_state memAB ⟨0, .SWL, 0⟩ 0 0x11223344).mem 0
        % 2^((4 - 0 % 4) * 8) = 0x11223344 >>> ((0 % 4) * 8)) ∧
    readU32 (lightrec_rw test_state memAB ⟨0, .SWR, 0⟩ 0 0x11223344).mem 0
        = 0x11223344 ∧
    ¬ (readU32 (lightrec_rw test_state memAB ⟨0, .SWR, 0⟩ 0 0x11223344).mem 0
        >>> ((4 - (0 % 4 + 1)) * 8) = 0x11223344 % 2^((0 % 4 + 1) * 8)) := by
  decide

/-- C1 (amended): for every SWL store through `lightrec_rw` to a
direct-memory region, with `shift = kaddr & 3` and the aligned word at
host address `& ~3`: the store places the high `shift + 1` bytes of
`data_in` into the low `shift + 1` bytes of the word, clears bit
`shift*8 + 8`, and preserves exactly the bits `GENMASK(31, shift*8 + 9)`
of the prior memory word; for every SWR store it places the low
`4 - shift` bytes of `data_in` into the high `4 - shift` bytes of the
word and preserves exactly the low `shift*8` bits of the prior word. -/
theorem swl_swr_direct_store_semantics (s : LightrecState) (mem : Mem)
    (op : Opcode) (addr data : Nat) (e : MemMap) (K sh wa : Nat)
    (hd : data < 2^32)
    (hres : spec_resolve s.mem_map (effective_addr op addr)
      (kunseg (effective_addr op addr)) = some e)
    (hops : e.ops = none)
    (hK : K = kunseg (effective_addr op addr))
    (hsh : sh = K % 4)
    (hwa : wa = 4 * ((e.address + (K - e.pc)) / 4)) :
    (op.op = .SWL →
      readU32 (lightrec_rw s mem op addr data).mem wa % 2^((sh + 1) * 8)
          = data >>> ((3 - sh) * 8) ∧
      readU32 (lightrec_rw s mem op addr data).mem wa &&& GENMASK 31 (sh * 8 + 9)
          = readU32 mem wa &&& GENMASK 31 (sh * 8 + 9) ∧
      (readU32 (lightrec_rw s mem op addr data).mem wa).testBit (sh * 8 + 8)
          = false) ∧
    (op.op = .SWR →
      readU32 (lightrec_rw s mem op addr data).mem wa % 2^(sh * 8)
          = readU32 mem wa % 2^(sh * 8) ∧
      readU32 (lightrec_rw s mem op addr data).mem wa >>> (sh * 8)
          = data % 2^((4 - sh) * 8)) := by
  obtain ⟨r, o, i⟩ := op
  subst hK hsh hwa
  have hsh4 : kunseg (effective_addr ⟨r, o, i⟩ addr) % 4 < 4 :=
    Nat.mod_lt _ (by norm_num)
  constructor
  · intro h
    dsimp only at h
    subst h
    rw [rw_reduce_direct s mem ⟨r, .SWL, i⟩ addr data e hres hops, rw_direct_SWL]
    dsimp only
    rw [readU32_writeU32]
    have hWc : (data >>> ((3 - kunseg (effective_addr ⟨r, .SWL, i⟩ addr) % 4) * 8)) |||
        (readU32 mem (4 * ((e.address +
            (kunseg (effective_addr ⟨r, .SWL, i⟩ addr) - e.pc)) / 4)) &&&
          GENMASK 31 ((kunseg (effective_addr ⟨r, .SWL, i⟩ addr) % 4) * 8 + 9)) < 2^32 := by
      apply Nat.or_lt_two_pow
      · rw [Nat.shiftRight_eq_div_pow]
        exact Nat.lt_of_le_of_lt (Nat.div_le_self _ _) hd
      · exact Nat.and_lt_two_pow _ (GENMASK_31_lt _ (by omega))
    rw [Nat.mod_eq_of_lt hWc]
    exact ⟨swl_word_low data _ _ hd hsh4, swl_word_mask data _ _ hd hsh4,
      swl_word_gap data _ _ hd hsh4⟩
  · intro h
    dsimp only at h
    subst h
    rw [rw_reduce_direct s mem ⟨r, .SWR, i⟩ addr data e hres hops, rw_direct_SWR]
    dsimp only
    rw [readU32_writeU32]
    have hWc : ((data <<< ((kunseg (effective_addr ⟨r, .SWR, i⟩ addr) % 4) * 8)) % 2^32) |||
        (readU32 mem (4 * ((e.address +
            (kunseg (effective_addr ⟨r, .SWR, i⟩ addr) - e.pc)) / 4)) &&&
          ((1 <<< ((kunseg (effective_addr ⟨r, .SWR, i⟩ addr) % 4) * 8)) - 1)) < 2^32 := by
      apply Nat.or_lt_two_pow
      · exact Nat.mod_lt _ (by norm_num)
      · apply Nat.and_lt_two_pow
        rw [Nat.one_shiftLeft]
        have h24 : (2:Nat)^((kunseg (effective_addr ⟨r, .SWR, i⟩ addr) % 4) * 8) ≤ 2^24 :=
          Nat.pow_le_pow_right (by norm_num) (by omega)
        omega
    rw [Nat.mod_eq_of_lt hWc]
    exact ⟨swr_word_low data _ _ hsh4, swr_word_high data _ _ hsh4⟩

/-- C1 witness: SWL of `0x11223344` at guest address 1 (shift 1) over
the all-zero memory stores the high two bytes into the low two bytes of
the word. -/
theorem swl_swr_direct_store_semantics_witness :
    (0x11223344 : Nat) < 2^32 ∧
    (1 : Nat) = kunseg (effective_addr ⟨0, .SWL, 0⟩ 1) ∧
    readU32 (lightrec_rw test_state mem0 ⟨0, .SWL, 0⟩ 1 0x11223344).mem 0
        % 2^((1 + 1) * 8) = 0x11223344 >>> ((3 - 1) * 8) :=
  ⟨by decide, by decide,
    ((swl_swr_direct_store_semantics test_state mem0 ⟨0, .SWL, 0⟩ 1 0x11223344
        direct_map 1 1 0 (by decide) rfl rfl (by decide) (by decide) (by decide)).1
      rfl).1⟩

/-- C2 counterexample: at the mis-aligned direct-memory address 1
(shift 1) the sequence SWL; SWR; LWL; LWR with `v = 0x11223344` yields
`0x44223344`, not `v` — the SWR overwrites the word byte holding the
high byte of `v`, so `v` is not recoverable. -/
theorem rw_roundtrip_cex :
    rw_roundtrip test_state mem0 1 0x11223344 = 0x44223344 ∧
    rw_roundtrip test_state mem0 1 0x11223344 ≠ 0x11223344 := by
  decide

/-- C2 (amended): the SWL; SWR; LWL; LWR sequence at a single
direct-memory address `A` reproduces `v` exactly when `A` is
word-aligned (`shift = A & 3 = 0`); for `shift ≠ 0` the store pair
loses bytes of `v` (see the counterexample). -/
theorem rw_roundtrip_aligned (s : LightrecState) (mem : Mem) (e : MemMap)
    (A v : Nat) (hA : A < 2^32) (hv : v < 2^32) (hA4 : A % 4 = 0)
    (hres : spec_resolve s.mem_map A (kunseg A) = some e)
    (hops : e.ops = none) :
    rw_roundtrip s mem A v = v := by
  have heffSWL : effective_addr ⟨0, .SWL, 0⟩ A = A := effective_addr_zero _ _ rfl hA
  have heffSWR : effective_addr ⟨0, .SWR, 0⟩ A = A := effective_addr_zero _ _ rfl hA
  have heffLWL : effective_addr ⟨0, .LWL, 0⟩ A = A := effective_addr_zero _ _ rfl hA
  have heffLWR : effective_addr ⟨0, .LWR, 0⟩ A = A := effective_addr_zero _ _ rfl hA
  have hsh : kunseg A % 4 = 0 := by rw [kunseg_mod4]; omega
  unfold rw_roundtrip
  rw [rw_reduce_direct s mem ⟨0, .SWL, 0⟩ A v e (by rw [heffSWL]; exact hres) hops]
  rw [heffSWL, rw_direct_SWL, hsh]
  dsimp only
  rw [rw_reduce_direct s _ ⟨0, .SWR, 0⟩ A v e (by rw [heffSWR]; exact hres) hops]
  rw [heffSWR, rw_direct_SWR, hsh]
  dsimp only
  rw [rw_reduce_direct s _ ⟨0, .LWL, 0⟩ A 0 e (by rw [heffLWL]; exact hres) hops]
  rw [heffLWL, rw_direct_LWL, hsh]
  dsimp only
  rw [rw_reduce_direct s _ ⟨0, .LWR, 0⟩ A _ e (by rw [heffLWR]; exact hres) hops]
  rw [heffLWR, rw_direct_LWR, hsh]
  dsimp only
  simp only [Nat.zero_mul, Nat.sub_zero, Nat.zero_add, Nat.sub_self,
    Nat.shiftLeft_zero, Nat.shiftRight_zero, GENMASK_31_32, Nat.and_zero,
    Nat.zero_and, Nat.or_zero, Nat.zero_or, readU32_writeU32,
    Nat.mod_eq_of_lt hv]

/-- C2 witness: the aligned round trip at guest address `0x80000100`
reproduces `0x11223344`. -/
theorem rw_roundtrip_aligned_witness :
    (0x80000100 : Nat) < 2^32 ∧ (0x11223344 : Nat) < 2^32 ∧
    (0x80000100 : Nat) % 4 = 0 ∧
    spec_resolve test_state.mem_map 0x80000100 (kunseg 0x80000100) = some direct_map ∧
    rw_roundtrip test_state mem0 0x80000100 0x11223344 = 0x11223344 :=
  ⟨by decide, by decide, by decide, rfl,
    rw_roundtrip_aligned test_state mem0 direct_map 0x80000100 0x11223344
      (by decide) (by decide) (by decide) rfl rfl⟩

/-- C9: for every LB executed through `lightrec_rw` — on the direct path
or the MMIO path — the returned value is the sign extension of the
loaded byte, while LBU zero-extends; LH sign-extends and LHU
zero-extends the loaded halfword; in particular a byte `0xFF` loads as
`0xFFFFFFFF` under LB and as `0xFF` under LBU.  On the MMIO path the
callbacks return zero-extended data per their interface contract, which
the bound hypotheses here express. -/
theorem rw_load_extension (s : LightrecState) (mem : Mem) (op : Opcode)
    (addr data : Nat) (e : MemMap)
    (hres : spec_resolve s.mem_map (effective_addr op addr)
      (kunseg (effective_addr op addr)) = some e) :
    (e.ops = none →
      (op.op = .LB →
        (lightrec_rw s mem op addr data).value =
          sext8 (readU8 mem (e.address + (kunseg (effective_addr op addr) - e.pc)))) ∧
      (op.op = .LBU →
        (lightrec_rw s mem op addr data).value =
          readU8 mem (e.address + (kunseg (effective_addr op addr) - e.pc))) ∧
      (op.op = .LH →
        (lightrec_rw s mem op addr data).value =
          sext16 (readU16 mem (e.address + (kunseg (effective_addr op addr) - e.pc)))) ∧
      (op.op = .LHU →
        (lightrec_rw s mem op addr data).value =
          readU16 mem (e.address + (kunseg (effective_addr op addr) - e.pc))) ∧
      (op.op = .LB →
        readU8 mem (e.address + (kunseg (effective_addr op addr) - e.pc)) = 0xFF →
        (lightrec_rw s mem op addr data).value = 0xFFFFFFFF) ∧
      (op.op = .LBU →
        readU8 mem (e.address + (kunseg (effective_addr op addr) - e.pc)) = 0xFF →
        (lightrec_rw s mem op addr data).value = 0xFF)) ∧
    (∀ ops : MemMapOps, e.ops = some ops →
      (op.op = .LB → ops.lb (effective_addr op addr) < 2^8 →
        (lightrec_rw s mem op addr data).value =
          sext8 (ops.lb (effective_addr op addr))) ∧
      (op.op = .LBU → ops.lb (effective_addr op addr) < 2^8 →
        (lightrec_rw s mem op addr data).value = ops.lb (effective_addr op addr)) ∧
      (op.op = .LH → ops.lh (effective_addr op addr) < 2^16 →
        (lightrec_rw s mem op addr data).value =
          sext16 (ops.lh (effective_addr op addr))) ∧
      (op.op = .LHU → ops.lh (effective_addr op addr) < 2^16 →
        (lightrec_rw s mem op addr data).value = ops.lh (effective_addr op addr)) ∧
      (op.op = .LB → ops.lb (effective_addr op addr) = 0xFF →
        (lightrec_rw s mem op addr data).value = 0xFFFFFFFF) ∧
      (op.op = .LBU → ops.lb (effective_addr op addr) = 0xFF →
        (lightrec_rw s mem op addr data).value = 0xFF)) := by
  obtain ⟨r, o, i⟩ := op
  constructor
  · intro hops
    have hred := rw_reduce_direct s mem ⟨r, o, i⟩ addr data e hres hops
    refine ⟨?_, ?_, ?_, ?_, ?_, ?_⟩
    · intro h; dsimp only at h; subst h; rw [hred]; rfl
    · intro h; dsimp only at h; subst h; rw [hred]; rfl
    · intro h; dsimp only at h; subst h; rw [hred]; rfl
    · intro h; dsimp only at h; subst h; rw [hred]; rfl
    · intro h hb; dsimp only at h; subst h; rw [hred]
      show sext8 (readU8 mem (e.address + (kunseg (effective_addr ⟨r, .LB, i⟩ addr) - e.pc)))
        = 0xFFFFFFFF
      rw [hb]
      decide
    · intro h hb; dsimp only at h; subst h; rw [hred]
      show readU8 mem (e.address + (kunseg (effective_addr ⟨r, .LBU, i⟩ addr) - e.pc))
        = 0xFF
      exact hb
  · intro ops hops
    have hred := rw_reduce_ops s mem ⟨r, o, i⟩ addr data e ops hres hops
    refine ⟨?_, ?_, ?_, ?_, ?_, ?_⟩
    · intro h hb; dsimp only at h; subst h; rw [hred]
      show sext8 (ops.lb (effective_addr ⟨r, .LB, i⟩ addr) % 2^8) = _
      rw [Nat.mod_eq_of_lt hb]
    · intro h hb; dsimp only at h; subst h; rw [hred]
      show ops.lb (effective_addr ⟨r, .LBU, i⟩ addr) % 2^32 = _
      exact Nat.mod_eq_of_lt (by omega)
    · intro h hb; dsimp only at h; subst h; rw [hred]
      show sext16 (ops.lh (effective_addr ⟨r, .LH, i⟩ addr) % 2^16) = _
      rw [Nat.mod_eq_of_lt hb]
    · intro h hb; dsimp only at h; subst h; rw [hred]
      show ops.lh (effective_addr ⟨r, .LHU, i⟩ addr) % 2^32 = _
      exact Nat.mod_eq_of_lt (by omega)
    · intro h hb; dsimp only at h; subst h; rw [hred]
      show sext8 (ops.lb (effective_addr ⟨r, .LB, i⟩ addr) % 2^8) = 0xFFFFFFFF
      rw [hb]
      decide
    · intro h hb; dsimp only at h; subst h; rw [hred]
      show ops.lb (effective_addr ⟨r, .LBU, i⟩ addr) % 2^32 = 0xFF
      rw [hb]
      decide

/-- C9 witness: LB of a `0xFF` byte through the direct path and through
the MMIO path both return `0xFFFFFFFF`; LBU through the MMIO path
returns `0xFF`. -/
theorem rw_load_extension_witness :
    direct_map.ops = none ∧ mmio_map.ops = some test_ops ∧
    (lightrec_rw test_state memFF ⟨0, .LB, 0⟩ 0 0).value = 0xFFFFFFFF ∧
    (lightrec_rw mmio_state mem0 ⟨0, .LB, 0⟩ 0x1f801000 0).value = 0xFFFFFFFF ∧
    (lightrec_rw mmio_state mem0 ⟨0, .LBU, 0⟩ 0x1f801000 0).value = 0xFF :=
  ⟨rfl, rfl,
    ((rw_load_extension test_state memFF ⟨0, .LB, 0⟩ 0 0 direct_map rfl).1
      rfl).2.2.2.2.1 rfl rfl,
    ((rw_load_extension mmio_state mem0 ⟨0, .LB, 0⟩ 0x1f801000 0 mmio_map rfl).2
      test_ops rfl).2.2.2.2.1 rfl rfl,
    ((rw_load_extension mmio_state mem0 ⟨0, .LBU, 0⟩ 0x1f801000 0 mmio_map rfl).2
      test_ops rfl).2.2.2.2.2 rfl rfl⟩

/-- C10: when `lightrec_rw` resolves to an MMIO region, SWL and SWR are
dispatched to the region's `sw` callback as a full-word store with the
unshifted `data_in` value (returning 0, leaving memory and state
untouched), and LWL and LWR fall through to the `lw` callback, returning
the full loaded word independently of `data_in` (no merge masking). -/
theorem rw_mmio_word_ops (s : LightrecState) (mem : Mem) (op : Opcode)
    (addr data : Nat) (e : MemMap) (ops : MemMapOps)
    (hres : spec_resolve s.mem_map (effective_addr op addr)
      (kunseg (effective_addr op addr)) = some e)
    (hops : e.ops = some ops) :
    ((op.op = .SWL ∨ op.op = .SWR) →
      lightrec_rw s mem op addr data =
        ⟨0, mem, s, [.sw (effective_addr op addr) data], []⟩) ∧
    ((op.op = .LWL ∨ op.op = .LWR) →
      (lightrec_rw s mem op addr data).value =
          ops.lw (effective_addr op addr) % 2^32 ∧
      ∀ d2 : Nat, (lightrec_rw s mem op addr d2).value =
          (lightrec_rw s mem op addr data).value) := by
  obtain ⟨r, o, i⟩ := op
  have hd2 : ∀ d2 : Nat, (lightrec_rw s mem ⟨r, o, i⟩ addr d2).value =
      (lightrec_rw_ops ops ⟨r, o, i⟩ (effective_addr ⟨r, o, i⟩ addr) d2).1 := by
    intro d2
    rw [rw_reduce_ops s mem ⟨r, o, i⟩ addr d2 e ops hres hops]
  constructor
  · intro h
    rcases h with h | h
    · dsimp only at h
      subst h
      exact (rw_reduce_ops s mem ⟨r, .SWL, i⟩ addr data e ops hres hops).trans rfl
    · dsimp only at h
      subst h
      exact (rw_reduce_ops s mem ⟨r, .SWR, i⟩ addr data e ops hres hops).trans rfl
  · intro h
    rcases h with h | h
    · dsimp only at h
      subst h
      exact ⟨hd2 data, fun d2 => by rw [hd2 data, hd2 d2]; rfl⟩
    · dsimp only at h
      subst h
      exact ⟨hd2 data, fun d2 => by rw [hd2 data, hd2 d2]; rfl⟩

/-- C10 witness: SWL to the MMIO region dispatches an `sw` store of the
unshifted datum at the pre-kunseg address, and LWL returns the region's
`lw` result. -/
theorem rw_mmio_word_ops_witness :
    mmio_map.ops = some test_ops ∧
    lightrec_rw mmio_state mem0 ⟨0, .SWL, 0⟩ 0x1f801004 0x11223344 =
      ⟨0, mem0, mmio_state,
        [.sw (effective_addr ⟨0, .SWL, 0⟩ 0x1f801004) 0x11223344], []⟩ ∧
    (lightrec_rw mmio_state mem0 ⟨0, .LWL, 0⟩ 0x1f801004 0x11223344).value =
      test_ops.lw (effective_addr ⟨0, .LWL, 0⟩ 0x1f801004) % 2^32 :=
  ⟨rfl,
    (rw_mmio_word_ops mmio_state mem0 ⟨0, .SWL, 0⟩ 0x1f801004 0x11223344
      mmio_map test_ops rfl rfl).1 (Or.inl rfl),
    ((rw_mmio_word_ops mmio_state mem0 ⟨0, .LWL, 0⟩ 0x1f801004 0x11223344
      mmio_map test_ops rfl rfl).2 (Or.inl rfl)).1⟩

end Lightrec
